import Mathlib

/-!
# Verification of `serialrw.js`

A shallow embedding of the `SerialReader` / `SerialWriter` pair from
`src/serialrw.js` (a sequential binary encoder/decoder over `ArrayBuffer`s),
together with proofs and refutations of the specified properties.

Modelling conventions:
* An `ArrayBuffer` is a `List Nat` whose entries are byte values (`< 256`);
  every byte the model itself stores is reduced `% 256`, mirroring the
  byte-granular storage of a real `ArrayBuffer`.
* JavaScript numbers used as cursors or decoded integers are `Int`
  (the reader's cursor can become negative through a decoded negative
  length, so `Nat` would be unfaithful there).
* 32-bit coercions (`| 0`, `<<`, `>>>`) are explicit `% 2^32` arithmetic
  with a signed reinterpretation `toInt32`.
* Code paths that throw (`DataView` out-of-range access, calling a method
  that does not exist) return `Except JsErr`.
-/

/-- The JavaScript exceptions the embedded code can raise. -/
inductive JsErr where
  /-- `RangeError`: a `DataView` access outside the buffer bounds. -/
  | rangeError
  /-- `TypeError`: invoking a property that is not a function
      (e.g. a method that does not exist on the object). -/
  | typeError
  /-- Modelling artifact: the fuel given to the varint decode loop ran out.
      The fuel supplied by `SerialReader.ruv` is always sufficient, because
      the JS loop advances the cursor by one byte per iteration and throws
      once the cursor passes the end of the buffer. -/
  | fuelExhausted
  deriving DecidableEq

/-- `ToUint32` of an integer: the unsigned 32-bit pattern, as used by `>>>`. -/
def toUint32 (n : Int) : Nat := (n % (2 ^ 32 : Int)).toNat

/-- `ToInt32` of an unsigned 32-bit pattern: the value of `(x | 0)`,
i.e. the pattern reinterpreted as a signed 32-bit integer. -/
def toInt32 (u : Nat) : Int :=
  let v : Nat := u % 2 ^ 32
  if v < 2 ^ 31 then (v : Int) else (v : Int) - 2 ^ 32

instance {ε α : Type} [DecidableEq ε] [DecidableEq α] :
    DecidableEq (Except ε α) := fun x y =>
  match x, y with
  | .ok a, .ok b =>
    if h : a = b then .isTrue (by rw [h]) else .isFalse (by simp [h])
  | .error a, .error b =>
    if h : a = b then .isTrue (by rw [h]) else .isFalse (by simp [h])
  | .ok _, .error _ => .isFalse (by simp)
  | .error _, .ok _ => .isFalse (by simp)

/-- `DataView.prototype.getUint8(i)`: returns byte `i`, or throws a
`RangeError` when `i` is outside `[0, buf.length)`. -/
def getUint8 (buf : List Nat) (i : Int) : Except JsErr Nat :=
  if 0 ≤ i then
    match buf[i.toNat]? with
    | some b => .ok (b % 256)
    | none => .error .rangeError
  else .error .rangeError

/-- `DataView.prototype.getUint16(i)` (big-endian): bytes `i, i+1`,
or a `RangeError` when the two bytes do not fit in the buffer. -/
def getUint16 (buf : List Nat) (i : Int) : Except JsErr Nat :=
  match getUint8 buf i, getUint8 buf (i + 1) with
  | .ok hi, .ok lo => .ok (hi * 256 + lo)
  | _, _ => .error .rangeError

/-- `DataView.prototype.getUint32(i)` (big-endian): bytes `i..i+3`,
or a `RangeError` when the four bytes do not fit in the buffer. -/
def getUint32 (buf : List Nat) (i : Int) : Except JsErr Nat :=
  match getUint16 buf i, getUint16 buf (i + 2) with
  | .ok hi, .ok lo => .ok (hi * 65536 + lo)
  | _, _ => .error .rangeError

/-- `ArrayBuffer.prototype.slice(start, stop)`: a copy of the clamped range.
Negative indices count from the end; both endpoints are clamped to
`[0, length]`, and an inverted range yields the empty buffer. -/
def jsSliceBuf (l : List Nat) (start stop : Int) : List Nat :=
  let len : Int := l.length
  let first := if start < 0 then max (len + start) 0 else min start len
  let last := if stop < 0 then max (len + stop) 0 else min stop len
  (l.drop first.toNat).take (last - first).toNat

/-- The state of a `SerialReader`: the wrapped buffer (via its `DataView`)
and the cursor `pos`. The source never mutates the buffer. -/
structure SerialReader where
  buf : List Nat
  pos : Int
  deriving DecidableEq

/-- `delayedMove(move)`: save `pos`, advance it by `move`, return the
saved (pre-advance) position together with the updated state. -/
def SerialReader.delayedMove (r : SerialReader) (move : Int) :
    Int × SerialReader :=
  (r.pos, { r with pos := r.pos + move })

/-- `ru8()`: `this.dv.getUint8(this.delayedMove(1))`. The cursor is advanced
before the `DataView` access runs. -/
def SerialReader.ru8 (r : SerialReader) : Except JsErr (Nat × SerialReader) :=
  let (saved, r') := r.delayedMove 1
  match getUint8 r'.buf saved with
  | .ok b => .ok (b, r')
  | .error e => .error e

/-- `ru16()`: `this.dv.getUint16(this.delayedMove(2))`. -/
def SerialReader.ru16 (r : SerialReader) : Except JsErr (Nat × SerialReader) :=
  let (saved, r') := r.delayedMove 2
  match getUint16 r'.buf saved with
  | .ok b => .ok (b, r')
  | .error e => .error e

/-- `ru32()`: `this.dv.getUint32(this.delayedMove(4))`. -/
def SerialReader.ru32 (r : SerialReader) : Except JsErr (Nat × SerialReader) :=
  let (saved, r') := r.delayedMove 4
  match getUint32 r'.buf saved with
  | .ok b => .ok (b, r')
  | .error e => .error e

/-- `DataView.prototype.getInt8(i)`: byte `i` reinterpreted as a signed
8-bit integer, or a `RangeError` out of bounds. -/
def getInt8 (buf : List Nat) (i : Int) : Except JsErr Int :=
  match getUint8 buf i with
  | .ok b => .ok (if b < 128 then (b : Int) else (b : Int) - 256)
  | .error e => .error e

/-- `DataView.prototype.getInt16(i)` (big-endian): the 16-bit pattern
reinterpreted as a signed 16-bit integer. -/
def getInt16 (buf : List Nat) (i : Int) : Except JsErr Int :=
  match getUint16 buf i with
  | .ok v => .ok (if v < 2 ^ 15 then (v : Int) else (v : Int) - 2 ^ 16)
  | .error e => .error e

/-- `DataView.prototype.getInt32(i)` (big-endian): the 32-bit pattern
reinterpreted as a signed 32-bit integer. -/
def getInt32 (buf : List Nat) (i : Int) : Except JsErr Int :=
  match getUint32 buf i with
  | .ok v => .ok (toInt32 v)
  | .error e => .error e

/-- The eight bytes read big-endian by `DataView.prototype.getFloat64(i)`,
as a 64-bit pattern (bounds behavior identical to two 32-bit reads). -/
def getFloat64Bits (buf : List Nat) (i : Int) : Except JsErr Nat :=
  match getUint32 buf i, getUint32 buf (i + 4) with
  | .ok hi, .ok lo => .ok (hi * 2 ^ 32 + lo)
  | _, _ => .error .rangeError

/-- `ri8()`: `this.dv.getInt8(this.delayedMove(1))`. -/
def SerialReader.ri8 (r : SerialReader) : Except JsErr (Int × SerialReader) :=
  let (saved, r') := r.delayedMove 1
  match getInt8 r'.buf saved with
  | .ok b => .ok (b, r')
  | .error e => .error e

/-- `ri16()`: `this.dv.getInt16(this.delayedMove(2))`. -/
def SerialReader.ri16 (r : SerialReader) : Except JsErr (Int × SerialReader) :=
  let (saved, r') := r.delayedMove 2
  match getInt16 r'.buf saved with
  | .ok b => .ok (b, r')
  | .error e => .error e

/-- `ri32()`: `this.dv.getInt32(this.delayedMove(4))`. -/
def SerialReader.ri32 (r : SerialReader) : Except JsErr (Int × SerialReader) :=
  let (saved, r') := r.delayedMove 4
  match getInt32 r'.buf saved with
  | .ok b => .ok (b, r')
  | .error e => .error e

/-- `ri64()` is `this.dv.getInt64(this.delayedMove(8))`, and `DataView` has
no method `getInt64` (only `getBigInt64`), so the property access yields
`undefined` and the call throws a `TypeError`. (In JS the argument
`delayedMove(8)` runs before the call is attempted, so `pos` has already
advanced when the exception aborts the operation; the model discards the
state together with the exception, as everywhere else.) -/
def SerialReader.ri64 (_ : SerialReader) : Except JsErr (Int × SerialReader) :=
  .error .typeError

/-- `ru64()` is `this.dv.getUint64(this.delayedMove(8))`; `DataView` has no
`getUint64` (only `getBigUint64`), so every call throws `TypeError`. -/
def SerialReader.ru64 (_ : SerialReader) : Except JsErr (Int × SerialReader) :=
  .error .typeError

/-- `rf32()`: `this.dv.getFloat32(this.delayedMove(4))`. The model returns
the 32-bit big-endian pattern read (via the same bounds behavior as
`getUint32`); the IEEE-754 number `getFloat32` makes of that pattern is
outside the embedding, and the cursor and bounds behavior — all the claims
use — is fully captured. -/
def SerialReader.rf32 (r : SerialReader) : Except JsErr (Nat × SerialReader) :=
  let (saved, r') := r.delayedMove 4
  match getUint32 r'.buf saved with
  | .ok b => .ok (b, r')
  | .error e => .error e

/-- `rf64()`: `this.dv.getFloat64(this.delayedMove(8))`, modelled on the
64-bit pattern as `rf32` is on the 32-bit one. -/
def SerialReader.rf64 (r : SerialReader) : Except JsErr (Nat × SerialReader) :=
  let (saved, r') := r.delayedMove 8
  match getFloat64Bits r'.buf saved with
  | .ok b => .ok (b, r')
  | .error e => .error e

/-- `rbool()`: `this.ru8() > 0`. -/
def SerialReader.rbool (r : SerialReader) : Except JsErr (Bool × SerialReader) :=
  match r.ru8 with
  | .ok (b, r') => .ok (decide (0 < b), r')
  | .error e => .error e

/-- `rchar()`: `String.fromCharCode(this.ru8())` — the one-character
string of code unit `b < 256`, modelled by that character. -/
def SerialReader.rchar (r : SerialReader) : Except JsErr (Char × SerialReader) :=
  match r.ru8 with
  | .ok (b, r') => .ok (Char.ofNat b, r')
  | .error e => .error e

/-- The loop body of `ruv()`. The accumulator is kept as the unsigned 32-bit
pattern of the JS number `n`: each iteration performs
`n = (n << 7) | (byte & 0x7F)` (a 32-bit operation, hence the `% 2^32`),
and continues while `byte & 0x80` is set. On exit the pattern is returned
as the signed 32-bit value the JS `|` produced. -/
def ruvLoop : Nat → Nat → SerialReader → Except JsErr (Int × SerialReader)
  | 0, _, _ => .error .fuelExhausted
  | fuel + 1, acc, r =>
    match r.ru8 with
    | .error e => .error e
    | .ok (b, r') =>
      let acc' := (acc * 128 + b % 128) % 2 ^ 32
      if b.testBit 7 then ruvLoop fuel acc' r'
      else .ok (toInt32 acc', r')

/-- `ruv()`: read a variable-size unsigned integer. The fuel
`buf.length + 1` always suffices: each iteration moves the cursor forward by
one byte, and the first access past the end of the buffer throws. -/
def SerialReader.ruv (r : SerialReader) : Except JsErr (Int × SerialReader) :=
  ruvLoop (r.buf.length + 1) 0 r

/-- `riv()`: unsigned-varint-decode, then unpack sign-and-magnitude:
`sign = (n & 1) ? -1 : 1; n = (n & ~1) >>> 1; return n * sign`.
The bit operations act on the 32-bit pattern of `n`; `(n & ~1) >>> 1`
is exactly the pattern halved. -/
def SerialReader.riv (r : SerialReader) : Except JsErr (Int × SerialReader) :=
  match r.ruv with
  | .error e => .error e
  | .ok (n, r') =>
    let u := toUint32 n
    let sign : Int := if u % 2 = 1 then -1 else 1
    .ok ((u / 2 : Nat) * sign, r')

/-- `rbytes()`: read a varint length, then
`this.dv.buffer.slice(this.pos, this.pos += length)` — a clamped copy of
the next `length` bytes, with the cursor advanced by `length` (which, when
the decoded length is negative, moves the cursor backward). -/
def SerialReader.rbytes (r : SerialReader) :
    Except JsErr (List Nat × SerialReader) :=
  match r.ruv with
  | .error e => .error e
  | .ok (length, r') =>
    let bytes := jsSliceBuf r'.buf r'.pos (r'.pos + length)
    .ok (bytes, { r' with pos := r'.pos + length })

/-- `rutf8()` in the source is `new TextDecoder().decode(this.rarr())`.
No method `rarr` is defined anywhere on `SerialReader`, so the property
access yields `undefined` and the call raises a `TypeError` before any
byte is read or decoded; the reader state is untouched. -/
def SerialReader.rutf8 (_ : SerialReader) :
    Except JsErr (String × SerialReader) :=
  .error .typeError

/-- `getBuffer()`: `return this.dv.buffer` — the very buffer the reader
was constructed over, whole and untrimmed. -/
def SerialReader.getBuffer (r : SerialReader) : List Nat := r.buf

/-- The state of a `SerialWriter`: the backing `ArrayBuffer` contents
(`store`, whose length is the capacity) and the logical end `pos`. -/
structure SerialWriter where
  store : List Nat
  pos : Nat
  deriving DecidableEq

/-- `new SerialWriter()` with no argument: `pos = 0` over a fresh
zero-filled 8-byte `ArrayBuffer`. -/
def SerialWriter.mkEmpty : SerialWriter := ⟨List.replicate 8 0, 0⟩

/-- `allocMin(length)`: when `length >= capacity`, reallocate to
`max(length, capacity * 2)`; the new `ArrayBuffer` is zero-filled and the
whole old store is copied to its front. -/
def SerialWriter.allocMin (w : SerialWriter) (length : Nat) : SerialWriter :=
  if w.store.length ≤ length then
    let newCap := max length (w.store.length * 2)
    { w with store := w.store ++ List.replicate (newCap - w.store.length) 0 }
  else w

/-- `allocMinExtra(additionalLength)`: `allocMin(pos + additionalLength)`. -/
def SerialWriter.allocMinExtra (w : SerialWriter) (additionalLength : Nat) :
    SerialWriter :=
  w.allocMin (w.pos + additionalLength)

/-- `delayedMove(move)`: save `pos`, advance it, run `allocMin(pos)`,
and return the saved position with the updated state. -/
def SerialWriter.delayedMove (w : SerialWriter) (move : Nat) :
    Nat × SerialWriter :=
  let saved := w.pos
  let w' : SerialWriter := { w with pos := w.pos + move }
  (saved, w'.allocMin w'.pos)

/-- `wu8(n)` is `this.dv.setUint8(this.delayedMove(1), n)`.
JavaScript evaluates the receiver `this.dv` *before* the argument, so the
`setUint8` call targets the `DataView` that existed before `delayedMove`
ran. When `delayedMove` reallocates (`pos + 1 >= capacity`), the write
therefore lands in the discarded old buffer: if the offset fits the old
buffer the byte is silently lost, otherwise the old view throws a
`RangeError`. Only without reallocation does the byte reach the live
store (stored `% 256`, as `setUint8` truncates to one byte). -/
def SerialWriter.wu8 (w : SerialWriter) (n : Nat) : Except JsErr SerialWriter :=
  let oldCap := w.store.length
  let (saved, w') := w.delayedMove 1
  if oldCap ≤ saved + 1 then
    if saved < oldCap then .ok w'
    else .error .rangeError
  else .ok { w' with store := w'.store.set saved (n % 256) }

/-- `wi8(n)`: `this.dv.setInt8(this.delayedMove(1), n)` — same
receiver-capture shape as `wu8`; `setInt8` stores the byte pattern
`n mod 256`. -/
def SerialWriter.wi8 (w : SerialWriter) (n : Int) : Except JsErr SerialWriter :=
  let oldCap := w.store.length
  let (saved, w') := w.delayedMove 1
  if oldCap ≤ saved + 1 then
    if saved + 1 ≤ oldCap then .ok w'
    else .error .rangeError
  else .ok { w' with store := w'.store.set saved (n % 256).toNat }

/-- `wu16(n)`: `this.dv.setUint16(this.delayedMove(2), n)` — the receiver
is captured before `delayedMove`, so at a reallocation boundary the
two-byte big-endian write lands in the discarded buffer (lost when it fits
that buffer, `RangeError` otherwise). -/
def SerialWriter.wu16 (w : SerialWriter) (n : Nat) : Except JsErr SerialWriter :=
  let oldCap := w.store.length
  let (saved, w') := w.delayedMove 2
  if oldCap ≤ saved + 2 then
    if saved + 2 ≤ oldCap then .ok w'
    else .error .rangeError
  else .ok { w' with store :=
    (w'.store.set saved (n / 256 % 256)).set (saved + 1) (n % 256) }

/-- `wi16(n)`: `this.dv.setInt16(this.delayedMove(2), n)`; `setInt16`
stores the 16-bit pattern `n mod 2^16` big-endian. -/
def SerialWriter.wi16 (w : SerialWriter) (n : Int) : Except JsErr SerialWriter :=
  let oldCap := w.store.length
  let (saved, w') := w.delayedMove 2
  let m : Nat := (n % 2 ^ 16).toNat
  if oldCap ≤ saved + 2 then
    if saved + 2 ≤ oldCap then .ok w'
    else .error .rangeError
  else .ok { w' with store :=
    (w'.store.set saved (m / 256 % 256)).set (saved + 1) (m % 256) }

/-- `wu32(n)`: `this.dv.setUint32(this.delayedMove(4), n)` — four bytes
big-endian of the pattern `n mod 2^32`, written through the captured
receiver like `wu8`. -/
def SerialWriter.wu32 (w : SerialWriter) (n : Nat) : Except JsErr SerialWriter :=
  let oldCap := w.store.length
  let (saved, w') := w.delayedMove 4
  let m : Nat := n % 2 ^ 32
  if oldCap ≤ saved + 4 then
    if saved + 4 ≤ oldCap then .ok w'
    else .error .rangeError
  else .ok { w' with store :=
    ((((w'.store.set saved (m / 2 ^ 24 % 256)).set (saved + 1) (m / 2 ^ 16 % 256)).set
      (saved + 2) (m / 2 ^ 8 % 256)).set (saved + 3) (m % 256)) }

/-- `wi32(n)`: `this.dv.setInt32(this.delayedMove(4), n)`; `setInt32`
stores the 32-bit pattern of `n` big-endian. -/
def SerialWriter.wi32 (w : SerialWriter) (n : Int) : Except JsErr SerialWriter :=
  let oldCap := w.store.length
  let (saved, w') := w.delayedMove 4
  let m : Nat := toUint32 n
  if oldCap ≤ saved + 4 then
    if saved + 4 ≤ oldCap then .ok w'
    else .error .rangeError
  else .ok { w' with store :=
    ((((w'.store.set saved (m / 2 ^ 24 % 256)).set (saved + 1) (m / 2 ^ 16 % 256)).set
      (saved + 2) (m / 2 ^ 8 % 256)).set (saved + 3) (m % 256)) }

/-- `wi64(n)` is `this.dv.setInt64(this.delayedMove(8), n)`, and `DataView`
has no method `setInt64` (only `setBigInt64`), so every call throws a
`TypeError` (after the argument `delayedMove(8)` has run; the model
discards that state together with the exception). -/
def SerialWriter.wi64 (_ : SerialWriter) (_ : Int) : Except JsErr SerialWriter :=
  .error .typeError

/-- `wu64(n)` is `this.dv.setUint64(this.delayedMove(8), n)`; `DataView`
has no `setUint64`, so every call throws `TypeError`. -/
def SerialWriter.wu64 (_ : SerialWriter) (_ : Int) : Except JsErr SerialWriter :=
  .error .typeError

/-- `wf32(n)`: `this.dv.setFloat32(this.delayedMove(4), n)`. `setFloat32`
stores the four-byte big-endian IEEE-754 pattern of the number; the
number-to-pattern conversion is outside the embedding, so the model takes
the resulting 32-bit pattern as its argument — the cursor, growth and
store behavior, which the claims use, is fully captured. -/
def SerialWriter.wf32 (w : SerialWriter) (p : Nat) : Except JsErr SerialWriter :=
  let oldCap := w.store.length
  let (saved, w') := w.delayedMove 4
  let m : Nat := p % 2 ^ 32
  if oldCap ≤ saved + 4 then
    if saved + 4 ≤ oldCap then .ok w'
    else .error .rangeError
  else .ok { w' with store :=
    ((((w'.store.set saved (m / 2 ^ 24 % 256)).set (saved + 1) (m / 2 ^ 16 % 256)).set
      (saved + 2) (m / 2 ^ 8 % 256)).set (saved + 3) (m % 256)) }

/-- `wf64(n)`: `this.dv.setFloat64(this.delayedMove(8), n)`, modelled on
the 64-bit pattern as `wf32` is on the 32-bit one. -/
def SerialWriter.wf64 (w : SerialWriter) (p : Nat) : Except JsErr SerialWriter :=
  let oldCap := w.store.length
  let (saved, w') := w.delayedMove 8
  let m : Nat := p % 2 ^ 64
  if oldCap ≤ saved + 8 then
    if saved + 8 ≤ oldCap then .ok w'
    else .error .rangeError
  else .ok { w' with store :=
    ((((((((w'.store.set saved (m / 2 ^ 56 % 256)).set (saved + 1) (m / 2 ^ 48 % 256)).set
      (saved + 2) (m / 2 ^ 40 % 256)).set (saved + 3) (m / 2 ^ 32 % 256)).set
      (saved + 4) (m / 2 ^ 24 % 256)).set (saved + 5) (m / 2 ^ 16 % 256)).set
      (saved + 6) (m / 2 ^ 8 % 256)).set (saved + 7) (m % 256)) }

/-- `wbool(b)`: `this.wu8(b ? 1 : 0)`. -/
def SerialWriter.wbool (w : SerialWriter) (b : Bool) : Except JsErr SerialWriter :=
  w.wu8 (if b then 1 else 0)

/-- `wchar(ch)`: `this.wu8(ch.charCodeAt(0))`. `charCodeAt(0)` is the
first UTF-16 code unit: the code point itself inside the BMP, the high
surrogate `0xD800 + ((cp - 0x10000) >> 10)` beyond it. -/
def SerialWriter.wchar (w : SerialWriter) (c : Char) : Except JsErr SerialWriter :=
  w.wu8 (if c.toNat < 65536 then c.toNat else 55296 + (c.toNat - 65536) / 1024)

/-- The byte count `Math.ceil(Math.log2(n) / 7)` computed by `wuv`.
For `n ≥ 2` this is the least `k` with `n ≤ 128 ^ k`, computed here by the
recurrence `⌈log₁₂₈ n⌉ = ⌈log₁₂₈ ⌈n / 128⌉⌉ + 1` (the first argument is
fuel, consumed once per division, so the recursion is structural);
for `n = 1` the formula gives `ceil(0 / 7) = 0`, and for `n = 0` it gives
`ceil(-∞)`, for which the `for` loop in the source runs zero times —
both are rendered as a byte count of `0`. -/
def clog128Go : Nat → Nat → Nat
  | 0, _ => 0
  | f + 1, n => if n ≤ 1 then 0 else clog128Go f ((n + 127) / 128) + 1

/-- `Math.ceil(Math.log2(n) / 7)` for a non-negative `n`, as used by `wuv`. -/
def jsByteLength (n : Nat) : Nat := clog128Go (n + 1) n

/-- The `for` loop of `wuv(n)`, iterating `i` from `byteLength - 1` down
to `0`: each step emits `(n >>> (i * 7)) & 0x7F`, with `0x80` OR-ed in on
every byte but the last (`i = 0`). `>>>` acts on the unsigned 32-bit
pattern of `n` and takes its shift count mod 32. The argument after the
pattern is `i + 1`, so the match handles iteration `i`. -/
def SerialWriter.wuvLoop (m : Nat) : SerialWriter → Nat → Except JsErr SerialWriter
  | w, 0 => .ok w
  | w, i + 1 =>
    let b : Nat := (m % 2 ^ 32) / 2 ^ ((i * 7) % 32) % 128
    let byte : Nat := if i ≠ 0 then b + 128 else b
    match w.wu8 byte with
    | .error e => .error e
    | .ok w' => w'.wuvLoop m i

/-- `wuv(n)`: compute `byteLength = Math.ceil(Math.log2(n) / 7)` and emit
that many 7-bit groups, most significant first. For a negative `n` (which
`wiv` can produce via 32-bit overflow) `Math.log2` is `NaN`, the loop
bound is `NaN` and the loop body never runs. -/
def SerialWriter.wuv (w : SerialWriter) (n : Int) : Except JsErr SerialWriter :=
  if n < 0 then .ok w
  else w.wuvLoop n.toNat (jsByteLength n.toNat)

/-- `wiv(n)`: `wuv((Math.abs(n) << 1) | (n < 0 ? 1 : 0))`. The shift is a
32-bit operation: the pattern is `(|n| * 2) % 2^32` (its low bit is `0`),
the sign is OR-ed into that low bit, and the result is the signed 32-bit
reading of the pattern. -/
def SerialWriter.wiv (w : SerialWriter) (n : Int) : Except JsErr SerialWriter :=
  w.wuv (toInt32 ((n.natAbs * 2) % 2 ^ 32 + (if n < 0 then 1 else 0)))

/-- `Uint8Array.prototype.set(bytes, pos)`: overwrite
`store[pos .. pos + bytes.length)` with `bytes`. -/
def writeAt (store : List Nat) (pos : Nat) (bytes : List Nat) : List Nat :=
  store.take pos ++ bytes ++ store.drop (pos + bytes.length)

/-- `wbytes(buffer)`: write the length as an unsigned varint, ensure
capacity with `allocMinExtra`, bulk-copy the bytes at `pos` (into the
store as it exists *after* the reallocation — `this.dv.buffer` is read
after `allocMinExtra` runs), and advance `pos` by the byte count.
The `Uint8Array` view stores each entry `% 256`. -/
def SerialWriter.wbytes (w : SerialWriter) (bytes : List Nat) :
    Except JsErr SerialWriter :=
  match w.wuv (bytes.length : Int) with
  | .error e => .error e
  | .ok w₁ =>
    let w₂ := w₁.allocMinExtra bytes.length
    .ok { store := writeAt w₂.store w₂.pos (bytes.map (· % 256)),
          pos := w₂.pos + bytes.length }

/-- `TextEncoder.prototype.encode`: the UTF-8 bytes of a string
(the byte list underlying `String.toUTF8`). -/
def utf8Bytes (s : String) : List Nat :=
  (s.data.flatMap String.utf8EncodeChar).map (fun b => b.toNat)

/-- `wutf8(str)`: encode the string as UTF-8 and write it as a byte run. -/
def SerialWriter.wutf8 (w : SerialWriter) (s : String) : Except JsErr SerialWriter :=
  w.wbytes (utf8Bytes s)

/-- `getBuffer()` (writer): `this.dv.buffer.slice(0, this.pos)` — a fresh
copy of the logical `[0, pos)` slice. `slice` clamps the end to the buffer
length, exactly as `List.take` does. -/
def SerialWriter.getBuffer (w : SerialWriter) : List Nat := w.store.take w.pos

/-- Driver used by the growth-correctness property: write the given bytes
one at a time with `wu8`. -/
def writeList (w : SerialWriter) : List Nat → Except JsErr SerialWriter
  | [] => .ok w
  | b :: rest =>
    match w.wu8 b with
    | .error e => .error e
    | .ok w' => writeList w' rest

example : SerialReader.ru8 ⟨[7, 8], 0⟩ = .ok (7, ⟨[7, 8], 1⟩) := rfl
example : SerialReader.ru8 ⟨[], 0⟩ = .error .rangeError := rfl
example : SerialReader.ruv ⟨[0x82, 0x2C], 0⟩ = .ok (300, ⟨[0x82, 0x2C], 2⟩) := by decide
example : SerialReader.riv ⟨[0x0B], 0⟩ = .ok (-5, ⟨[0x0B], 1⟩) := by decide
example : jsByteLength 0 = 0 := by decide
example : jsByteLength 1 = 0 := by decide
example : jsByteLength 127 = 1 := by decide
example : jsByteLength 128 = 1 := by decide
example : jsByteLength 129 = 2 := by decide
example : jsByteLength 300 = 2 := by decide
example : (SerialWriter.mkEmpty.wuv 300).map SerialWriter.getBuffer = .ok [0x82, 0x2C] := by decide
example : (SerialWriter.mkEmpty.wuv 0).map SerialWriter.getBuffer = .ok [] := by decide
example : (SerialWriter.mkEmpty.wuv 128).map SerialWriter.getBuffer = .ok [0] := by decide
example : (SerialWriter.mkEmpty.wiv (-5)).map SerialWriter.getBuffer = .ok [0x0B] := by decide
example : (writeList SerialWriter.mkEmpty [1, 2, 3, 4, 5, 6, 7, 8, 9]).map
    SerialWriter.getBuffer = .ok [1, 2, 3, 4, 5, 6, 7, 0, 9] := by decide
example : (SerialWriter.mkEmpty.wbytes [7]).map SerialWriter.getBuffer = .ok [7] := by decide
example : (SerialWriter.mkEmpty.wutf8 "").map SerialWriter.getBuffer = .ok [] := by decide
example : (SerialWriter.mkEmpty.wutf8 "hi").map SerialWriter.getBuffer = .ok [2, 104, 105] := by decide

/-- Claim C1. The claim states that `ruv(wuv(n)) = n` on `[0, 2^32 - 1]`,
that `wuv(n)` emits `ceil(bitlength(n) / 7)` bytes with a floor of one
byte, and that `wuv(0)` emits the single byte `0x00`. The code refutes it:
the byte count `Math.ceil(Math.log2(n) / 7)` makes `wuv(0)` and `wuv(1)`
emit no bytes at all, and `wuv(128)` emit the single byte `0x00`
(one byte instead of the required two), which decodes to `0`, not `128`. -/
theorem claim_C1_wuv_byteLength_bug :
    (SerialWriter.mkEmpty.wuv 0).map SerialWriter.getBuffer = .ok [] ∧
    (SerialWriter.mkEmpty.wuv 1).map SerialWriter.getBuffer = .ok [] ∧
    (SerialWriter.mkEmpty.wuv 128).map SerialWriter.getBuffer = .ok [0x00] ∧
    (SerialReader.ruv ⟨[0x00], 0⟩).map Prod.fst = .ok 0 := by
  refine ⟨by decide, by decide, by decide, by decide⟩

/-- Claim C2. The claim states that `riv(wiv(n)) = n` for every signed
32-bit `n`, including `0`. The code refutes it at `n = 0`: `wiv(0)` calls
`wuv(0)`, which emits no bytes, so the writer's output is empty and
decoding it with `riv` throws an out-of-bounds `RangeError` instead of
returning `0`. -/
theorem claim_C2_wiv_zero_bug :
    (SerialWriter.mkEmpty.wiv 0).map SerialWriter.getBuffer = .ok [] ∧
    SerialReader.riv ⟨[], 0⟩ = .error .rangeError := by
  refine ⟨by decide, by decide⟩

/-- Claim C3. The claim states that every read whose bytes extend past the
buffer's end fails with a distinct out-of-bounds error. The fixed-width
reads do (the `DataView` accessors throw a `RangeError`), but the
length-prefixed `rbytes` does not: on the one-byte buffer `[0x05]`
(length prefix `5`, no payload) `ArrayBuffer.slice` clamps, so `rbytes`
silently returns an empty, truncated copy and advances the cursor to `6`. -/
theorem claim_C3_rbytes_no_bounds_check :
    SerialReader.rbytes ⟨[0x05], 0⟩ = .ok ([], ⟨[0x05], 6⟩) ∧
    SerialReader.ru8 ⟨[], 0⟩ = .error .rangeError ∧
    SerialReader.ru16 ⟨[7], 0⟩ = .error .rangeError ∧
    SerialReader.ru32 ⟨[7, 7, 7], 0⟩ = .error .rangeError := by
  refine ⟨by decide, by decide, by decide, by decide⟩

/-- Claim C4. The claim states that `wbytes` followed by `rbytes`
round-trips every byte sequence, in particular those of length 1. The code
refutes it: `wbytes [7]` writes its length prefix with `wuv(1)`, which
emits no bytes, so the output is just `[7]`; reading it back, `rbytes`
consumes `7` as the length prefix and returns the empty (clamped) slice
instead of `[7]`. -/
theorem claim_C4_wbytes_length_one_bug :
    (SerialWriter.mkEmpty.wbytes [7]).map SerialWriter.getBuffer = .ok [7] ∧
    SerialReader.rbytes ⟨[7], 0⟩ = .ok ([], ⟨[7], 8⟩) := by
  refine ⟨by decide, by decide⟩

/-- Claim C5. The claim states that writing `N` bytes one at a time into a
writer started at minimum capacity (8) loses no bytes and extracts a
buffer of length `N`. The code refutes it at `N = 9`: the 8th `wu8`
triggers reallocation inside `delayedMove`, but `setUint8` was invoked on
the `DataView` fetched before the argument ran, so the 8th byte lands in
the discarded buffer. The extracted buffer has the right length 9 but
holds `0` where the 8th byte (`8`) was written. -/
theorem claim_C5_growth_loses_byte :
    (writeList SerialWriter.mkEmpty [1, 2, 3, 4, 5, 6, 7, 8, 9]).map
      SerialWriter.getBuffer = .ok [1, 2, 3, 4, 5, 6, 7, 0, 9] ∧
    [1, 2, 3, 4, 5, 6, 7, 0, 9] ≠ [1, 2, 3, 4, 5, 6, 7, 8, 9] := by
  refine ⟨by decide, by decide⟩

/-- Claim C6. The claim states that `rutf8(wutf8(s)) = s` for every UTF-8
string, the empty string included. The code refutes it for every input:
`rutf8` is `new TextDecoder().decode(this.rarr())`, and no method `rarr`
exists on `SerialReader`, so every call throws a `TypeError` instead of
returning the string — here shown against the writer's output for `""`
(which, because `wuv(0)` emits no length prefix, is itself empty). -/
theorem claim_C6_rutf8_undefined_method :
    (∀ (buf : List Nat) (pos : Int),
      SerialReader.rutf8 ⟨buf, pos⟩ = .error .typeError) ∧
    (SerialWriter.mkEmpty.wutf8 "").map SerialWriter.getBuffer = .ok [] := by
  refine ⟨fun _ _ => rfl, by decide⟩

/-- Claim C8. Writing the unsigned varint `300` emits exactly the two
bytes `[0x82, 0x2C]` — continuation bit set on the first, clear on the
second — and decoding those two bytes returns `300` with the cursor
advanced by two. -/
theorem claim_C8_varint_300 :
    (SerialWriter.mkEmpty.wuv 300).map SerialWriter.getBuffer = .ok [0x82, 0x2C] ∧
    SerialReader.ruv ⟨[0x82, 0x2C], 0⟩ = .ok (300, ⟨[0x82, 0x2C], 2⟩) ∧
    (0x82 : Nat).testBit 7 = true ∧ (0x2C : Nat).testBit 7 = false := by
  refine ⟨by decide, by decide, by decide, by decide⟩

/-! Helper lemmas about the reader's cursor and buffer. -/

theorem getUint8_ok_lt {buf : List Nat} {i : Int} {b : Nat}
    (h : getUint8 buf i = .ok b) : 0 ≤ i ∧ i.toNat < buf.length := by
  by_cases hi : 0 ≤ i
  · rw [getUint8, if_pos hi] at h
    cases hg : buf[i.toNat]? with
    | none => rw [hg] at h; exact Except.noConfusion h
    | some v =>
      refine ⟨hi, ?_⟩
      rcases List.getElem?_eq_some_iff.mp hg with ⟨h1, _⟩
      exact h1
  · rw [getUint8, if_neg hi] at h; exact Except.noConfusion h

theorem getUint8_append {buf : List Nat} {i : Int} {b : Nat} (tail : List Nat)
    (h : getUint8 buf i = .ok b) : getUint8 (buf ++ tail) i = .ok b := by
  rcases getUint8_ok_lt h with ⟨hi, hlt⟩
  rw [getUint8, if_pos hi] at h ⊢
  rw [List.getElem?_append_left hlt]
  exact h

theorem ru8_ok_state {r : SerialReader} {b : Nat} {r' : SerialReader}
    (h : r.ru8 = .ok (b, r')) :
    r' = ⟨r.buf, r.pos + 1⟩ ∧ getUint8 r.buf r.pos = .ok b := by
  rw [SerialReader.ru8, SerialReader.delayedMove] at h
  cases hg : getUint8 r.buf r.pos with
  | ok v =>
    simp only [hg] at h
    injection h with h1
    injection h1 with hb hr
    exact ⟨hr.symm, by rw [hb]⟩
  | error e =>
    simp only [hg] at h
    exact Except.noConfusion h

theorem ru8_append {r : SerialReader} {b : Nat} {r' : SerialReader}
    (tail : List Nat) (h : r.ru8 = .ok (b, r')) :
    SerialReader.ru8 ⟨r.buf ++ tail, r.pos⟩ = .ok (b, ⟨r.buf ++ tail, r'.pos⟩) := by
  rcases ru8_ok_state h with ⟨hr, hg⟩
  rw [SerialReader.ru8, SerialReader.delayedMove]
  simp only [getUint8_append tail hg, hr]

theorem ruvLoop_ok_state {fuel : Nat} {acc : Nat} {r : SerialReader}
    {v : Int} {r' : SerialReader} (h : ruvLoop fuel acc r = .ok (v, r')) :
    r'.buf = r.buf ∧ r.pos < r'.pos := by
  induction fuel generalizing acc r with
  | zero => exact Except.noConfusion h
  | succ f ih =>
    rw [ruvLoop] at h
    cases h8 : r.ru8 with
    | error e =>
      simp only [h8] at h
      exact Except.noConfusion h
    | ok p =>
      obtain ⟨b, r₁⟩ := p
      simp only [h8] at h
      rcases ru8_ok_state h8 with ⟨hr1, _⟩
      have hbuf1 : r₁.buf = r.buf := by rw [hr1]
      have hpos1 : r₁.pos = r.pos + 1 := by rw [hr1]
      cases hbit : b.testBit 7 with
      | true =>
        simp only [hbit, if_pos] at h
        rcases ih h with ⟨hbuf, hpos⟩
        exact ⟨hbuf.trans hbuf1, by omega⟩
      | false =>
        simp only [hbit] at h
        injection h with h1
        injection h1 with hv hr
        refine ⟨?_, ?_⟩
        · rw [← hr]; exact hbuf1
        · rw [← hr]; omega

theorem ruvLoop_fuel_mono {fuel g : Nat} {acc : Nat} {r : SerialReader}
    {v : Int} {r' : SerialReader} (hle : fuel ≤ g)
    (h : ruvLoop fuel acc r = .ok (v, r')) : ruvLoop g acc r = .ok (v, r') := by
  induction fuel generalizing acc r g with
  | zero => exact Except.noConfusion h
  | succ f ih =>
    obtain ⟨g', rfl⟩ : ∃ g', g = g' + 1 := ⟨g - 1, by omega⟩
    rw [ruvLoop] at h ⊢
    cases h8 : r.ru8 with
    | error e => simp only [h8] at h ⊢; exact h
    | ok p =>
      obtain ⟨b, r₁⟩ := p
      simp only [h8] at h ⊢
      cases hbit : b.testBit 7 with
      | true =>
        simp only [hbit, if_pos] at h ⊢
        exact ih (by omega) h
      | false =>
        simp only [hbit] at h ⊢
        exact h

theorem ruvLoop_append {fuel : Nat} {acc : Nat} {r : SerialReader}
    {v : Int} {r' : SerialReader} (tail : List Nat)
    (h : ruvLoop fuel acc r = .ok (v, r')) :
    ruvLoop fuel acc ⟨r.buf ++ tail, r.pos⟩ = .ok (v, ⟨r.buf ++ tail, r'.pos⟩) := by
  induction fuel generalizing acc r with
  | zero => exact Except.noConfusion h
  | succ f ih =>
    rw [ruvLoop] at h ⊢
    cases h8 : r.ru8 with
    | error e =>
      simp only [h8] at h
      exact Except.noConfusion h
    | ok p =>
      obtain ⟨b, r₁⟩ := p
      simp only [h8] at h
      rw [ru8_append tail h8]
      rcases ru8_ok_state h8 with ⟨hr1, _⟩
      have hbuf1 : r₁.buf = r.buf := by rw [hr1]
      simp only
      cases hbit : b.testBit 7 with
      | true =>
        simp only [hbit, if_pos] at h ⊢
        have hih := ih h
        rw [hbuf1] at hih
        exact hih
      | false =>
        simp only [hbit] at h ⊢
        injection h with h1
        injection h1 with hv hr
        rw [hv, ← hr]
        simp

theorem ruv_ok_state {r : SerialReader} {v : Int} {r' : SerialReader}
    (h : r.ruv = .ok (v, r')) : r'.buf = r.buf ∧ r.pos < r'.pos :=
  ruvLoop_ok_state h

theorem ruv_append {r : SerialReader} {v : Int} {r' : SerialReader}
    (tail : List Nat) (h : r.ruv = .ok (v, r')) :
    SerialReader.ruv ⟨r.buf ++ tail, r.pos⟩ = .ok (v, ⟨r.buf ++ tail, r'.pos⟩) := by
  rw [SerialReader.ruv] at h ⊢
  have h1 := ruvLoop_append tail h
  exact ruvLoop_fuel_mono (by simp only [List.length_append]; omega) h1

theorem rbytes_ok_state {r : SerialReader} {bs : List Nat} {r₂ : SerialReader}
    (h : r.rbytes = .ok (bs, r₂)) :
    ∃ L r₁, r.ruv = .ok (L, r₁) ∧ r₂ = ⟨r₁.buf, r₁.pos + L⟩ ∧
      bs = jsSliceBuf r₁.buf r₁.pos (r₁.pos + L) := by
  rw [SerialReader.rbytes] at h
  cases hv : r.ruv with
  | error e => rw [hv] at h; exact Except.noConfusion h
  | ok p =>
    obtain ⟨L, r₁⟩ := p
    rw [hv] at h
    simp only at h
    injection h with h1
    injection h1 with hbs hr
    exact ⟨L, r₁, rfl, hr.symm, hbs.symm⟩

theorem ru16_ok_state {r : SerialReader} {b : Nat} {r' : SerialReader}
    (h : r.ru16 = .ok (b, r')) :
    r' = ⟨r.buf, r.pos + 2⟩ ∧ getUint16 r.buf r.pos = .ok b := by
  rw [SerialReader.ru16, SerialReader.delayedMove] at h
  cases hg : getUint16 r.buf r.pos with
  | ok v =>
    simp only [hg] at h
    injection h with h1
    injection h1 with hb hr
    exact ⟨hr.symm, by rw [hb]⟩
  | error e =>
    simp only [hg] at h
    exact Except.noConfusion h

theorem ru32_ok_state {r : SerialReader} {b : Nat} {r' : SerialReader}
    (h : r.ru32 = .ok (b, r')) :
    r' = ⟨r.buf, r.pos + 4⟩ ∧ getUint32 r.buf r.pos = .ok b := by
  rw [SerialReader.ru32, SerialReader.delayedMove] at h
  cases hg : getUint32 r.buf r.pos with
  | ok v =>
    simp only [hg] at h
    injection h with h1
    injection h1 with hb hr
    exact ⟨hr.symm, by rw [hb]⟩
  | error e =>
    simp only [hg] at h
    exact Except.noConfusion h

theorem ri8_ok_state {r : SerialReader} {b : Int} {r' : SerialReader}
    (h : r.ri8 = .ok (b, r')) :
    r' = ⟨r.buf, r.pos + 1⟩ ∧ getInt8 r.buf r.pos = .ok b := by
  rw [SerialReader.ri8, SerialReader.delayedMove] at h
  cases hg : getInt8 r.buf r.pos with
  | ok v =>
    simp only [hg] at h
    injection h with h1
    injection h1 with hb hr
    exact ⟨hr.symm, by rw [hb]⟩
  | error e =>
    simp only [hg] at h
    exact Except.noConfusion h

theorem ri16_ok_state {r : SerialReader} {b : Int} {r' : SerialReader}
    (h : r.ri16 = .ok (b, r')) :
    r' = ⟨r.buf, r.pos + 2⟩ ∧ getInt16 r.buf r.pos = .ok b := by
  rw [SerialReader.ri16, SerialReader.delayedMove] at h
  cases hg : getInt16 r.buf r.pos with
  | ok v =>
    simp only [hg] at h
    injection h with h1
    injection h1 with hb hr
    exact ⟨hr.symm, by rw [hb]⟩
  | error e =>
    simp only [hg] at h
    exact Except.noConfusion h

theorem ri32_ok_state {r : SerialReader} {b : Int} {r' : SerialReader}
    (h : r.ri32 = .ok (b, r')) :
    r' = ⟨r.buf, r.pos + 4⟩ ∧ getInt32 r.buf r.pos = .ok b := by
  rw [SerialReader.ri32, SerialReader.delayedMove] at h
  cases hg : getInt32 r.buf r.pos with
  | ok v =>
    simp only [hg] at h
    injection h with h1
    injection h1 with hb hr
    exact ⟨hr.symm, by rw [hb]⟩
  | error e =>
    simp only [hg] at h
    exact Except.noConfusion h

theorem rf32_ok_state {r : SerialReader} {b : Nat} {r' : SerialReader}
    (h : r.rf32 = .ok (b, r')) :
    r' = ⟨r.buf, r.pos + 4⟩ ∧ getUint32 r.buf r.pos = .ok b := by
  rw [SerialReader.rf32, SerialReader.delayedMove] at h
  cases hg : getUint32 r.buf r.pos with
  | ok v =>
    simp only [hg] at h
    injection h with h1
    injection h1 with hb hr
    exact ⟨hr.symm, by rw [hb]⟩
  | error e =>
    simp only [hg] at h
    exact Except.noConfusion h

theorem rf64_ok_state {r : SerialReader} {b : Nat} {r' : SerialReader}
    (h : r.rf64 = .ok (b, r')) :
    r' = ⟨r.buf, r.pos + 8⟩ ∧ getFloat64Bits r.buf r.pos = .ok b := by
  rw [SerialReader.rf64, SerialReader.delayedMove] at h
  cases hg : getFloat64Bits r.buf r.pos with
  | ok v =>
    simp only [hg] at h
    injection h with h1
    injection h1 with hb hr
    exact ⟨hr.symm, by rw [hb]⟩
  | error e =>
    simp only [hg] at h
    exact Except.noConfusion h

theorem rbool_ok_parts {r : SerialReader} {b : Bool} {r' : SerialReader}
    (h : r.rbool = .ok (b, r')) :
    ∃ u, r.ru8 = .ok (u, r') ∧ b = decide (0 < u) := by
  rw [SerialReader.rbool] at h
  cases h8 : r.ru8 with
  | error e =>
    simp only [h8] at h
    exact Except.noConfusion h
  | ok p =>
    obtain ⟨u, r₁⟩ := p
    simp only [h8] at h
    injection h with h1
    injection h1 with hb hr
    exact ⟨u, by rw [← hr], hb.symm⟩

theorem rchar_ok_parts {r : SerialReader} {c : Char} {r' : SerialReader}
    (h : r.rchar = .ok (c, r')) :
    ∃ u, r.ru8 = .ok (u, r') ∧ c = Char.ofNat u := by
  rw [SerialReader.rchar] at h
  cases h8 : r.ru8 with
  | error e =>
    simp only [h8] at h
    exact Except.noConfusion h
  | ok p =>
    obtain ⟨u, r₁⟩ := p
    simp only [h8] at h
    injection h with h1
    injection h1 with hb hr
    exact ⟨u, by rw [← hr], hb.symm⟩

theorem riv_ok_parts {r : SerialReader} {v : Int} {r' : SerialReader}
    (h : r.riv = .ok (v, r')) :
    ∃ n, r.ruv = .ok (n, r') ∧
      v = ((toUint32 n / 2 : Nat) : Int) *
        (if toUint32 n % 2 = 1 then -1 else 1) := by
  rw [SerialReader.riv] at h
  cases hv : r.ruv with
  | error e =>
    simp only [hv] at h
    exact Except.noConfusion h
  | ok p =>
    obtain ⟨n, r₁⟩ := p
    simp only [hv] at h
    injection h with h1
    injection h1 with hb hr
    exact ⟨n, by rw [← hr], hb.symm⟩

theorem getUint16_append {buf : List Nat} {i : Int} {v : Nat} (tail : List Nat)
    (h : getUint16 buf i = .ok v) : getUint16 (buf ++ tail) i = .ok v := by
  rw [getUint16] at h ⊢
  cases h1 : getUint8 buf i with
  | error e => simp only [h1] at h; exact Except.noConfusion h
  | ok hi =>
    cases h2 : getUint8 buf (i + 1) with
    | error e => simp only [h1, h2] at h; exact Except.noConfusion h
    | ok lo =>
      simp only [h1, h2] at h
      rw [getUint8_append tail h1, getUint8_append tail h2]
      exact h

theorem getUint32_append {buf : List Nat} {i : Int} {v : Nat} (tail : List Nat)
    (h : getUint32 buf i = .ok v) : getUint32 (buf ++ tail) i = .ok v := by
  rw [getUint32] at h ⊢
  cases h1 : getUint16 buf i with
  | error e => simp only [h1] at h; exact Except.noConfusion h
  | ok hi =>
    cases h2 : getUint16 buf (i + 2) with
    | error e => simp only [h1, h2] at h; exact Except.noConfusion h
    | ok lo =>
      simp only [h1, h2] at h
      rw [getUint16_append tail h1, getUint16_append tail h2]
      exact h

theorem getFloat64Bits_append {buf : List Nat} {i : Int} {v : Nat}
    (tail : List Nat) (h : getFloat64Bits buf i = .ok v) :
    getFloat64Bits (buf ++ tail) i = .ok v := by
  rw [getFloat64Bits] at h ⊢
  cases h1 : getUint32 buf i with
  | error e => simp only [h1] at h; exact Except.noConfusion h
  | ok hi =>
    cases h2 : getUint32 buf (i + 4) with
    | error e => simp only [h1, h2] at h; exact Except.noConfusion h
    | ok lo =>
      simp only [h1, h2] at h
      rw [getUint32_append tail h1, getUint32_append tail h2]
      exact h

theorem getInt8_append {buf : List Nat} {i : Int} {v : Int} (tail : List Nat)
    (h : getInt8 buf i = .ok v) : getInt8 (buf ++ tail) i = .ok v := by
  rw [getInt8] at h ⊢
  cases h1 : getUint8 buf i with
  | error e => simp only [h1] at h; exact Except.noConfusion h
  | ok b =>
    simp only [h1] at h
    rw [getUint8_append tail h1]
    exact h

theorem getInt16_append {buf : List Nat} {i : Int} {v : Int} (tail : List Nat)
    (h : getInt16 buf i = .ok v) : getInt16 (buf ++ tail) i = .ok v := by
  rw [getInt16] at h ⊢
  cases h1 : getUint16 buf i with
  | error e => simp only [h1] at h; exact Except.noConfusion h
  | ok b =>
    simp only [h1] at h
    rw [getUint16_append tail h1]
    exact h

theorem getInt32_append {buf : List Nat} {i : Int} {v : Int} (tail : List Nat)
    (h : getInt32 buf i = .ok v) : getInt32 (buf ++ tail) i = .ok v := by
  rw [getInt32] at h ⊢
  cases h1 : getUint32 buf i with
  | error e => simp only [h1] at h; exact Except.noConfusion h
  | ok b =>
    simp only [h1] at h
    rw [getUint32_append tail h1]
    exact h

theorem ru16_append {r : SerialReader} {b : Nat} {r' : SerialReader}
    (tail : List Nat) (h : r.ru16 = .ok (b, r')) :
    SerialReader.ru16 ⟨r.buf ++ tail, r.pos⟩ = .ok (b, ⟨r.buf ++ tail, r'.pos⟩) := by
  rcases ru16_ok_state h with ⟨hr, hg⟩
  rw [SerialReader.ru16, SerialReader.delayedMove]
  simp only [getUint16_append tail hg, hr]

theorem ru32_append {r : SerialReader} {b : Nat} {r' : SerialReader}
    (tail : List Nat) (h : r.ru32 = .ok (b, r')) :
    SerialReader.ru32 ⟨r.buf ++ tail, r.pos⟩ = .ok (b, ⟨r.buf ++ tail, r'.pos⟩) := by
  rcases ru32_ok_state h with ⟨hr, hg⟩
  rw [SerialReader.ru32, SerialReader.delayedMove]
  simp only [getUint32_append tail hg, hr]

theorem ri8_append {r : SerialReader} {b : Int} {r' : SerialReader}
    (tail : List Nat) (h : r.ri8 = .ok (b, r')) :
    SerialReader.ri8 ⟨r.buf ++ tail, r.pos⟩ = .ok (b, ⟨r.buf ++ tail, r'.pos⟩) := by
  rcases ri8_ok_state h with ⟨hr, hg⟩
  rw [SerialReader.ri8, SerialReader.delayedMove]
  simp only [getInt8_append tail hg, hr]

theorem ri16_append {r : SerialReader} {b : Int} {r' : SerialReader}
    (tail : List Nat) (h : r.ri16 = .ok (b, r')) :
    SerialReader.ri16 ⟨r.buf ++ tail, r.pos⟩ = .ok (b, ⟨r.buf ++ tail, r'.pos⟩) := by
  rcases ri16_ok_state h with ⟨hr, hg⟩
  rw [SerialReader.ri16, SerialReader.delayedMove]
  simp only [getInt16_append tail hg, hr]

theorem ri32_append {r : SerialReader} {b : Int} {r' : SerialReader}
    (tail : List Nat) (h : r.ri32 = .ok (b, r')) :
    SerialReader.ri32 ⟨r.buf ++ tail, r.pos⟩ = .ok (b, ⟨r.buf ++ tail, r'.pos⟩) := by
  rcases ri32_ok_state h with ⟨hr, hg⟩
  rw [SerialReader.ri32, SerialReader.delayedMove]
  simp only [getInt32_append tail hg, hr]

theorem rf32_append {r : SerialReader} {b : Nat} {r' : SerialReader}
    (tail : List Nat) (h : r.rf32 = .ok (b, r')) :
    SerialReader.rf32 ⟨r.buf ++ tail, r.pos⟩ = .ok (b, ⟨r.buf ++ tail, r'.pos⟩) := by
  rcases rf32_ok_state h with ⟨hr, hg⟩
  rw [SerialReader.rf32, SerialReader.delayedMove]
  simp only [getUint32_append tail hg, hr]

theorem rf64_append {r : SerialReader} {b : Nat} {r' : SerialReader}
    (tail : List Nat) (h : r.rf64 = .ok (b, r')) :
    SerialReader.rf64 ⟨r.buf ++ tail, r.pos⟩ = .ok (b, ⟨r.buf ++ tail, r'.pos⟩) := by
  rcases rf64_ok_state h with ⟨hr, hg⟩
  rw [SerialReader.rf64, SerialReader.delayedMove]
  simp only [getFloat64Bits_append tail hg, hr]

theorem rbool_append {r : SerialReader} {b : Bool} {r' : SerialReader}
    (tail : List Nat) (h : r.rbool = .ok (b, r')) :
    SerialReader.rbool ⟨r.buf ++ tail, r.pos⟩ = .ok (b, ⟨r.buf ++ tail, r'.pos⟩) := by
  rcases rbool_ok_parts h with ⟨u, h8, hb⟩
  rw [SerialReader.rbool, ru8_append tail h8, hb]

theorem rchar_append {r : SerialReader} {c : Char} {r' : SerialReader}
    (tail : List Nat) (h : r.rchar = .ok (c, r')) :
    SerialReader.rchar ⟨r.buf ++ tail, r.pos⟩ = .ok (c, ⟨r.buf ++ tail, r'.pos⟩) := by
  rcases rchar_ok_parts h with ⟨u, h8, hc⟩
  rw [SerialReader.rchar, ru8_append tail h8, hc]

theorem riv_append {r : SerialReader} {v : Int} {r' : SerialReader}
    (tail : List Nat) (h : r.riv = .ok (v, r')) :
    SerialReader.riv ⟨r.buf ++ tail, r.pos⟩ = .ok (v, ⟨r.buf ++ tail, r'.pos⟩) := by
  rcases riv_ok_parts h with ⟨n, hn, hv⟩
  rw [SerialReader.riv, ruv_append tail hn, hv]

/-- The 7-bit-group structure `ruv` consumes: whenever it succeeds it
started in bounds, stopped in bounds, the byte just before the final
cursor has its continuation bit clear, and every consumed byte before
that has it set — i.e. the cursor advanced by exactly the varint's byte
count. -/
theorem ruvLoop_octets {fuel acc : Nat} {r : SerialReader} {v : Int}
    {r' : SerialReader} (h : ruvLoop fuel acc r = .ok (v, r')) :
    0 ≤ r.pos ∧ r'.pos ≤ (r.buf.length : Int) ∧
    (∃ bl, getUint8 r.buf (r'.pos - 1) = .ok bl ∧ bl.testBit 7 = false) ∧
    (∀ j : Int, r.pos ≤ j → j < r'.pos - 1 →
      ∃ bj, getUint8 r.buf j = .ok bj ∧ bj.testBit 7 = true) := by
  induction fuel generalizing acc r with
  | zero => exact Except.noConfusion h
  | succ f ih =>
    rw [ruvLoop] at h
    cases h8 : r.ru8 with
    | error e =>
      simp only [h8] at h
      exact Except.noConfusion h
    | ok p =>
      obtain ⟨b, r₁⟩ := p
      simp only [h8] at h
      rcases ru8_ok_state h8 with ⟨hr1, hg⟩
      rcases getUint8_ok_lt hg with ⟨hp0, hpl⟩
      have hbuf1 : r₁.buf = r.buf := by rw [hr1]
      have hpos1 : r₁.pos = r.pos + 1 := by rw [hr1]
      cases hbit : b.testBit 7 with
      | false =>
        simp only [hbit] at h
        injection h with h1
        injection h1 with hv hr
        subst hr
        refine ⟨hp0, by omega, ⟨b, ?_, hbit⟩, ?_⟩
        · have he : r₁.pos - 1 = r.pos := by omega
          rw [he]
          exact hg
        · intro j hj1 hj2
          exact absurd hj2 (by omega)
      | true =>
        simp only [hbit] at h
        rcases ih h with ⟨h0, hlen, hlast, hmid⟩
        rw [hbuf1] at hlen hlast hmid
        refine ⟨hp0, hlen, hlast, ?_⟩
        intro j hj1 hj2
        rcases eq_or_lt_of_le hj1 with heq | hlt
        · refine ⟨b, ?_, hbit⟩
          rw [← heq]
          exact hg
        · exact hmid j (by omega) hj2

/-- `ruv`'s octet structure (the `ruvLoop` lemma at the fuel `ruv` uses). -/
theorem ruv_octets {r : SerialReader} {v : Int} {r' : SerialReader}
    (h : r.ruv = .ok (v, r')) :
    0 ≤ r.pos ∧ r'.pos ≤ (r.buf.length : Int) ∧
    (∃ bl, getUint8 r.buf (r'.pos - 1) = .ok bl ∧ bl.testBit 7 = false) ∧
    (∀ j : Int, r.pos ≤ j → j < r'.pos - 1 →
      ∃ bj, getUint8 r.buf j = .ok bj ∧ bj.testBit 7 = true) := by
  rw [SerialReader.ruv] at h
  exact ruvLoop_octets h

/-- `ArrayBuffer.slice` sees only bytes within the original buffer when
the requested window lies inside it, so appending a tail does not change
the slice. -/
theorem jsSliceBuf_append {l tail : List Nat} {s e : Int} (hs : 0 ≤ s)
    (hse : s ≤ e) (he : e ≤ (l.length : Int)) :
    jsSliceBuf (l ++ tail) s e = jsSliceBuf l s e := by
  rw [jsSliceBuf, jsSliceBuf]
  simp only [List.length_append, Nat.cast_add]
  rw [if_neg (by omega), if_neg (by omega), if_neg (by omega), if_neg (by omega)]
  have h1 : min s ((l.length : Int) + tail.length) = s := by omega
  have h2 : min e ((l.length : Int) + tail.length) = e := by omega
  have h3 : min s (l.length : Int) = s := by omega
  have h4 : min e (l.length : Int) = e := by omega
  rw [h1, h2, h3, h4]
  rw [List.drop_append_of_le_length (by omega)]
  rw [List.take_append_of_le_length (by simp only [List.length_drop]; omega)]

/-- A byte-run read whose decoded length is non-negative and whose window
stays inside the buffer returns the same payload and cursor on any
extension of the buffer. -/
theorem rbytes_append {r : SerialReader} {L : Int} {r₁ : SerialReader}
    {bs : List Nat} {r₂ : SerialReader} (tail : List Nat)
    (hv : r.ruv = .ok (L, r₁)) (hL : 0 ≤ L) (h : r.rbytes = .ok (bs, r₂))
    (hin : r₂.pos ≤ (r.buf.length : Int)) :
    SerialReader.rbytes ⟨r.buf ++ tail, r.pos⟩ = .ok (bs, ⟨r.buf ++ tail, r₂.pos⟩) := by
  rcases rbytes_ok_state h with ⟨L', r₁', hv', hr₂, hbs⟩
  rw [hv] at hv'
  injection hv' with h1
  injection h1 with hL' hr'
  subst hL'
  subst hr'
  have hbuf1 : r₁.buf = r.buf := (ruv_ok_state hv).1
  have hpos1 : r.pos < r₁.pos := (ruv_ok_state hv).2
  have hp0 : 0 ≤ r.pos := (ruv_octets hv).1
  have hpin : r₂.pos = r₁.pos + L := by rw [hr₂]
  rw [SerialReader.rbytes, ruv_append tail hv]
  simp only
  rw [jsSliceBuf_append (by omega) (by omega) (by omega)]
  rw [hbs, hbuf1, hpin]

theorem allocMin_pos (w : SerialWriter) (length : Nat) :
    (w.allocMin length).pos = w.pos := by
  rw [SerialWriter.allocMin]
  split <;> rfl

theorem wu8_pos {w : SerialWriter} {n : Nat} {w' : SerialWriter}
    (h : w.wu8 n = .ok w') : w'.pos = w.pos + 1 := by
  simp only [SerialWriter.wu8, SerialWriter.delayedMove] at h
  split at h
  · split at h
    · injection h with h1
      rw [← h1, allocMin_pos]
    · exact Except.noConfusion h
  · injection h with h1
    rw [← h1]
    show (SerialWriter.allocMin _ _).pos = w.pos + 1
    rw [allocMin_pos]

theorem wi8_pos {w : SerialWriter} {n : Int} {w' : SerialWriter}
    (h : w.wi8 n = .ok w') : w'.pos = w.pos + 1 := by
  simp only [SerialWriter.wi8, SerialWriter.delayedMove] at h
  split at h
  · split at h
    · injection h with h1
      rw [← h1, allocMin_pos]
    · exact Except.noConfusion h
  · injection h with h1
    rw [← h1]
    show (SerialWriter.allocMin _ _).pos = w.pos + 1
    rw [allocMin_pos]

theorem wu16_pos {w : SerialWriter} {n : Nat} {w' : SerialWriter}
    (h : w.wu16 n = .ok w') : w'.pos = w.pos + 2 := by
  simp only [SerialWriter.wu16, SerialWriter.delayedMove] at h
  split at h
  · split at h
    · injection h with h1
      rw [← h1, allocMin_pos]
    · exact Except.noConfusion h
  · injection h with h1
    rw [← h1]
    show (SerialWriter.allocMin _ _).pos = w.pos + 2
    rw [allocMin_pos]

theorem wi16_pos {w : SerialWriter} {n : Int} {w' : SerialWriter}
    (h : w.wi16 n = .ok w') : w'.pos = w.pos + 2 := by
  simp only [SerialWriter.wi16, SerialWriter.delayedMove] at h
  split at h
  · split at h
    · injection h with h1
      rw [← h1, allocMin_pos]
    · exact Except.noConfusion h
  · injection h with h1
    rw [← h1]
    show (SerialWriter.allocMin _ _).pos = w.pos + 2
    rw [allocMin_pos]

theorem wu32_pos {w : SerialWriter} {n : Nat} {w' : SerialWriter}
    (h : w.wu32 n = .ok w') : w'.pos = w.pos + 4 := by
  simp only [SerialWriter.wu32, SerialWriter.delayedMove] at h
  split at h
  · split at h
    · injection h with h1
      rw [← h1, allocMin_pos]
    · exact Except.noConfusion h
  · injection h with h1
    rw [← h1]
    show (SerialWriter.allocMin _ _).pos = w.pos + 4
    rw [allocMin_pos]

theorem wi32_pos {w : SerialWriter} {n : Int} {w' : SerialWriter}
    (h : w.wi32 n = .ok w') : w'.pos = w.pos + 4 := by
  simp only [SerialWriter.wi32, SerialWriter.delayedMove] at h
  split at h
  · split at h
    · injection h with h1
      rw [← h1, allocMin_pos]
    · exact Except.noConfusion h
  · injection h with h1
    rw [← h1]
    show (SerialWriter.allocMin _ _).pos = w.pos + 4
    rw [allocMin_pos]

theorem wf32_pos {w : SerialWriter} {p : Nat} {w' : SerialWriter}
    (h : w.wf32 p = .ok w') : w'.pos = w.pos + 4 := by
  simp only [SerialWriter.wf32, SerialWriter.delayedMove] at h
  split at h
  · split at h
    · injection h with h1
      rw [← h1, allocMin_pos]
    · exact Except.noConfusion h
  · injection h with h1
    rw [← h1]
    show (SerialWriter.allocMin _ _).pos = w.pos + 4
    rw [allocMin_pos]

theorem wf64_pos {w : SerialWriter} {p : Nat} {w' : SerialWriter}
    (h : w.wf64 p = .ok w') : w'.pos = w.pos + 8 := by
  simp only [SerialWriter.wf64, SerialWriter.delayedMove] at h
  split at h
  · split at h
    · injection h with h1
      rw [← h1, allocMin_pos]
    · exact Except.noConfusion h
  · injection h with h1
    rw [← h1]
    show (SerialWriter.allocMin _ _).pos = w.pos + 8
    rw [allocMin_pos]

theorem wbool_pos {w : SerialWriter} {b : Bool} {w' : SerialWriter}
    (h : w.wbool b = .ok w') : w'.pos = w.pos + 1 := by
  rw [SerialWriter.wbool] at h
  exact wu8_pos h

theorem wchar_pos {w : SerialWriter} {c : Char} {w' : SerialWriter}
    (h : w.wchar c = .ok w') : w'.pos = w.pos + 1 := by
  rw [SerialWriter.wchar] at h
  exact wu8_pos h

theorem wuvLoop_pos {m : Nat} {k : Nat} {w w' : SerialWriter}
    (h : w.wuvLoop m k = .ok w') : w'.pos = w.pos + k := by
  induction k generalizing w with
  | zero =>
    rw [SerialWriter.wuvLoop] at h
    injection h with h1
    rw [← h1]
    omega
  | succ i ih =>
    rw [SerialWriter.wuvLoop] at h
    split at h
    · exact Except.noConfusion h
    · rename_i w₁ heq
      have h1 := wu8_pos heq
      have h2 := ih h
      omega

theorem wuv_pos {w : SerialWriter} {n : Int} {w' : SerialWriter}
    (h : w.wuv n = .ok w') :
    w'.pos = w.pos + (if n < 0 then 0 else jsByteLength n.toNat) := by
  rw [SerialWriter.wuv] at h
  split at h
  · rename_i hneg
    injection h with h1
    rw [← h1, if_pos hneg]
    omega
  · rename_i hneg
    rw [if_neg hneg]
    exact wuvLoop_pos h

theorem wbytes_pos {w : SerialWriter} {bs : List Nat} {w' : SerialWriter}
    (h : w.wbytes bs = .ok w') :
    w'.pos = w.pos + jsByteLength bs.length + bs.length := by
  rw [SerialWriter.wbytes] at h
  split at h
  · exact Except.noConfusion h
  · rename_i w₁ heq
    injection h with h1
    have h2 := wuv_pos heq
    rw [if_neg (by omega), Int.toNat_natCast] at h2
    rw [← h1]
    show (w₁.allocMinExtra bs.length).pos + bs.length =
      w.pos + jsByteLength bs.length + bs.length
    rw [SerialWriter.allocMinExtra, allocMin_pos]
    omega

/-- Claim C7, counterexample. The claim asserts the cursor is monotonically
non-decreasing across every reader operation. On the five-byte buffer
`[0x88, 0x80, 0x80, 0x80, 0x00]` — the big-endian base-128 encoding of
`2^31` — `ruv` accumulates through 32-bit `<< 7 | b` steps, so the decoded
length is the *negative* int32 `-2^31`; `rbytes` then executes
`this.pos += length`, moving the cursor from `5` down to `-2147483643`,
strictly below its starting value `0`. -/
theorem claim_C7_cursor_moves_backward :
    SerialReader.rbytes ⟨[0x88, 0x80, 0x80, 0x80, 0x00], 0⟩ =
      .ok ([], ⟨[0x88, 0x80, 0x80, 0x80, 0x00], -2147483643⟩) ∧
    (-2147483643 : Int) < 0 := by
  refine ⟨by decide, by decide⟩

/-- Claim C7, amended. Every operation that succeeds advances its
component's cursor by exactly the bytes it consumes or emits, and —
provided every byte-run length prefix decodes (as int32) to a
non-negative value, the proviso the counterexample forces — the cursor
never decreases, and sequential operations compose. In detail: the
fixed-width reads (`ru8`, `ri8`, `rbool`, `rchar`: 1; `ru16`, `ri16`: 2;
`ru32`, `ri32`, `rf32`: 4; `rf64`: 8) advance the reader's cursor by
exactly their width and leave the buffer unchanged; `ruv` starts in
bounds and advances the cursor, within bounds, to exactly one byte past
the first byte whose continuation bit is clear (every earlier consumed
byte having it set) — i.e. by exactly the varint's byte count — and `riv`
performs exactly a `ruv` ending in the same state; `rbytes` with a
non-negative decoded length `L` advances the cursor by the prefix bytes
plus exactly `L`; the fixed-width writes (`wu8`, `wi8`, `wbool`, `wchar`:
1; `wu16`, `wi16`: 2; `wu32`, `wi32`, `wf32`: 4; `wf64`: 8) advance the
writer's cursor by exactly their width; `wuv` advances it by exactly the
number of bytes it emits (`ceil(log2 n / 7)`, zero for `n < 0`), `wiv`
is exactly `wuv` of the packed value, `wbytes` advances by the emitted
prefix bytes plus the payload length, and `wutf8` is exactly `wbytes` of
the UTF-8 bytes; the 64-bit operations and `rutf8` never succeed (they
throw `TypeError` on accessors that do not exist). Composition: every
fixed-width or varint read that succeeds on a buffer returns the same
value and cursor on any extension of that buffer — unconditionally,
since success already keeps such a read inside the buffer — and so does
a byte-run read whose decoded length is non-negative and whose window
stays inside the buffer (the clamped or negative-length byte-run reads
excluded by the proviso do not compose). -/
theorem claim_C7_amended_cursor_advance :
    (∀ (r : SerialReader) (L : Int) (r₁ : SerialReader) (bs : List Nat)
        (r₂ : SerialReader) (tail : List Nat),
        r.ruv = .ok (L, r₁) → 0 ≤ L → r.rbytes = .ok (bs, r₂) →
        r₂.pos ≤ (r.buf.length : Int) →
          SerialReader.rbytes ⟨r.buf ++ tail, r.pos⟩ =
            .ok (bs, ⟨r.buf ++ tail, r₂.pos⟩)) ∧
    (∀ (r : SerialReader) (b : Nat) (r' : SerialReader) (tail : List Nat),
        r.ru8 = .ok (b, r') →
          SerialReader.ru8 ⟨r.buf ++ tail, r.pos⟩ =
            .ok (b, ⟨r.buf ++ tail, r'.pos⟩)) ∧
    (∀ (r : SerialReader) (b : Nat) (r' : SerialReader) (tail : List Nat),
        r.ru16 = .ok (b, r') →
          SerialReader.ru16 ⟨r.buf ++ tail, r.pos⟩ =
            .ok (b, ⟨r.buf ++ tail, r'.pos⟩)) ∧
    (∀ (r : SerialReader) (b : Nat) (r' : SerialReader) (tail : List Nat),
        r.ru32 = .ok (b, r') →
          SerialReader.ru32 ⟨r.buf ++ tail, r.pos⟩ =
            .ok (b, ⟨r.buf ++ tail, r'.pos⟩)) ∧
    (∀ (r : SerialReader) (b : Int) (r' : SerialReader) (tail : List Nat),
        r.ri8 = .ok (b, r') →
          SerialReader.ri8 ⟨r.buf ++ tail, r.pos⟩ =
            .ok (b, ⟨r.buf ++ tail, r'.pos⟩)) ∧
    (∀ (r : SerialReader) (b : Int) (r' : SerialReader) (tail : List Nat),
        r.ri16 = .ok (b, r') →
          SerialReader.ri16 ⟨r.buf ++ tail, r.pos⟩ =
            .ok (b, ⟨r.buf ++ tail, r'.pos⟩)) ∧
    (∀ (r : SerialReader) (b : Int) (r' : SerialReader) (tail : List Nat),
        r.ri32 = .ok (b, r') →
          SerialReader.ri32 ⟨r.buf ++ tail, r.pos⟩ =
            .ok (b, ⟨r.buf ++ tail, r'.pos⟩)) ∧
    (∀ (r : SerialReader) (b : Nat) (r' : SerialReader) (tail : List Nat),
        r.rf32 = .ok (b, r') →
          SerialReader.rf32 ⟨r.buf ++ tail, r.pos⟩ =
            .ok (b, ⟨r.buf ++ tail, r'.pos⟩)) ∧
    (∀ (r : SerialReader) (b : Nat) (r' : SerialReader) (tail : List Nat),
        r.rf64 = .ok (b, r') →
          SerialReader.rf64 ⟨r.buf ++ tail, r.pos⟩ =
            .ok (b, ⟨r.buf ++ tail, r'.pos⟩)) ∧
    (∀ (r : SerialReader) (b : Bool) (r' : SerialReader) (tail : List Nat),
        r.rbool = .ok (b, r') →
          SerialReader.rbool ⟨r.buf ++ tail, r.pos⟩ =
            .ok (b, ⟨r.buf ++ tail, r'.pos⟩)) ∧
    (∀ (r : SerialReader) (c : Char) (r' : SerialReader) (tail : List Nat),
        r.rchar = .ok (c, r') →
          SerialReader.rchar ⟨r.buf ++ tail, r.pos⟩ =
            .ok (c, ⟨r.buf ++ tail, r'.pos⟩)) ∧
    (∀ (r : SerialReader) (v : Int) (r' : SerialReader) (tail : List Nat),
        r.ruv = .ok (v, r') →
          SerialReader.ruv ⟨r.buf ++ tail, r.pos⟩ =
            .ok (v, ⟨r.buf ++ tail, r'.pos⟩)) ∧
    (∀ (r : SerialReader) (v : Int) (r' : SerialReader) (tail : List Nat),
        r.riv = .ok (v, r') →
          SerialReader.riv ⟨r.buf ++ tail, r.pos⟩ =
            .ok (v, ⟨r.buf ++ tail, r'.pos⟩)) ∧
    (∀ (r : SerialReader) (b : Nat) (r' : SerialReader),
        r.ru8 = .ok (b, r') → r'.pos = r.pos + 1 ∧ r'.buf = r.buf) ∧
    (∀ (r : SerialReader) (b : Nat) (r' : SerialReader),
        r.ru16 = .ok (b, r') → r'.pos = r.pos + 2 ∧ r'.buf = r.buf) ∧
    (∀ (r : SerialReader) (b : Nat) (r' : SerialReader),
        r.ru32 = .ok (b, r') → r'.pos = r.pos + 4 ∧ r'.buf = r.buf) ∧
    (∀ (r : SerialReader) (b : Int) (r' : SerialReader),
        r.ri8 = .ok (b, r') → r'.pos = r.pos + 1 ∧ r'.buf = r.buf) ∧
    (∀ (r : SerialReader) (b : Int) (r' : SerialReader),
        r.ri16 = .ok (b, r') → r'.pos = r.pos + 2 ∧ r'.buf = r.buf) ∧
    (∀ (r : SerialReader) (b : Int) (r' : SerialReader),
        r.ri32 = .ok (b, r') → r'.pos = r.pos + 4 ∧ r'.buf = r.buf) ∧
    (∀ (r : SerialReader) (b : Nat) (r' : SerialReader),
        r.rf32 = .ok (b, r') → r'.pos = r.pos + 4 ∧ r'.buf = r.buf) ∧
    (∀ (r : SerialReader) (b : Nat) (r' : SerialReader),
        r.rf64 = .ok (b, r') → r'.pos = r.pos + 8 ∧ r'.buf = r.buf) ∧
    (∀ (r : SerialReader) (b : Bool) (r' : SerialReader),
        r.rbool = .ok (b, r') → r'.pos = r.pos + 1 ∧ r'.buf = r.buf) ∧
    (∀ (r : SerialReader) (c : Char) (r' : SerialReader),
        r.rchar = .ok (c, r') → r'.pos = r.pos + 1 ∧ r'.buf = r.buf) ∧
    (∀ (r : SerialReader) (v : Int) (r' : SerialReader),
        r.ruv = .ok (v, r') →
          r'.buf = r.buf ∧ 0 ≤ r.pos ∧ r.pos < r'.pos ∧
          r'.pos ≤ (r.buf.length : Int) ∧
          (∃ bl, getUint8 r.buf (r'.pos - 1) = .ok bl ∧
            bl.testBit 7 = false) ∧
          (∀ j : Int, r.pos ≤ j → j < r'.pos - 1 →
            ∃ bj, getUint8 r.buf j = .ok bj ∧ bj.testBit 7 = true)) ∧
    (∀ (r : SerialReader) (v : Int) (r' : SerialReader),
        r.riv = .ok (v, r') → ∃ n, r.ruv = .ok (n, r')) ∧
    (∀ (r : SerialReader) (L : Int) (r₁ : SerialReader) (bs : List Nat)
        (r₂ : SerialReader),
        r.ruv = .ok (L, r₁) → r.rbytes = .ok (bs, r₂) → 0 ≤ L →
          r₂.pos = r₁.pos + L ∧ r.pos < r₂.pos ∧ r₂.buf = r.buf) ∧
    (∀ r : SerialReader, r.ri64 = .error .typeError) ∧
    (∀ r : SerialReader, r.ru64 = .error .typeError) ∧
    (∀ r : SerialReader, r.rutf8 = .error .typeError) ∧
    (∀ (w : SerialWriter) (n : Int), w.wi64 n = .error .typeError) ∧
    (∀ (w : SerialWriter) (n : Int), w.wu64 n = .error .typeError) ∧
    (∀ (w : SerialWriter) (n : Nat) (w' : SerialWriter),
        w.wu8 n = .ok w' → w'.pos = w.pos + 1) ∧
    (∀ (w : SerialWriter) (n : Int) (w' : SerialWriter),
        w.wi8 n = .ok w' → w'.pos = w.pos + 1) ∧
    (∀ (w : SerialWriter) (n : Nat) (w' : SerialWriter),
        w.wu16 n = .ok w' → w'.pos = w.pos + 2) ∧
    (∀ (w : SerialWriter) (n : Int) (w' : SerialWriter),
        w.wi16 n = .ok w' → w'.pos = w.pos + 2) ∧
    (∀ (w : SerialWriter) (n : Nat) (w' : SerialWriter),
        w.wu32 n = .ok w' → w'.pos = w.pos + 4) ∧
    (∀ (w : SerialWriter) (n : Int) (w' : SerialWriter),
        w.wi32 n = .ok w' → w'.pos = w.pos + 4) ∧
    (∀ (w : SerialWriter) (p : Nat) (w' : SerialWriter),
        w.wf32 p = .ok w' → w'.pos = w.pos + 4) ∧
    (∀ (w : SerialWriter) (p : Nat) (w' : SerialWriter),
        w.wf64 p = .ok w' → w'.pos = w.pos + 8) ∧
    (∀ (w : SerialWriter) (b : Bool) (w' : SerialWriter),
        w.wbool b = .ok w' → w'.pos = w.pos + 1) ∧
    (∀ (w : SerialWriter) (c : Char) (w' : SerialWriter),
        w.wchar c = .ok w' → w'.pos = w.pos + 1) ∧
    (∀ (w : SerialWriter) (n : Int) (w' : SerialWriter),
        w.wuv n = .ok w' →
          w'.pos = w.pos + (if n < 0 then 0 else jsByteLength n.toNat)) ∧
    (∀ (w : SerialWriter) (n : Int),
        w.wiv n = w.wuv (toInt32 ((n.natAbs * 2) % 2 ^ 32 +
          (if n < 0 then 1 else 0)))) ∧
    (∀ (w : SerialWriter) (bs : List Nat) (w' : SerialWriter),
        w.wbytes bs = .ok w' →
          w'.pos = w.pos + jsByteLength bs.length + bs.length) ∧
    (∀ (w : SerialWriter) (s : String),
        w.wutf8 s = w.wbytes (utf8Bytes s)) := by
  refine ⟨?_, ?_, ?_, ?_, ?_, ?_, ?_, ?_, ?_, ?_, ?_, ?_, ?_, ?_, ?_, ?_,
    ?_, ?_, ?_, ?_, ?_, ?_, ?_, ?_, ?_, ?_, ?_, ?_, ?_, ?_, ?_, ?_, ?_,
    ?_, ?_, ?_, ?_, ?_, ?_, ?_, ?_, ?_, ?_, ?_, ?_⟩
  · intro r L r₁ bs r₂ tail hv hL h hin
    exact rbytes_append tail hv hL h hin
  · intro r b r' tail h
    exact ru8_append tail h
  · intro r b r' tail h
    exact ru16_append tail h
  · intro r b r' tail h
    exact ru32_append tail h
  · intro r b r' tail h
    exact ri8_append tail h
  · intro r b r' tail h
    exact ri16_append tail h
  · intro r b r' tail h
    exact ri32_append tail h
  · intro r b r' tail h
    exact rf32_append tail h
  · intro r b r' tail h
    exact rf64_append tail h
  · intro r b r' tail h
    exact rbool_append tail h
  · intro r c r' tail h
    exact rchar_append tail h
  · intro r v r' tail h
    exact ruv_append tail h
  · intro r v r' tail h
    exact riv_append tail h
  · intro r b r' h
    rw [(ru8_ok_state h).1]
    exact ⟨rfl, rfl⟩
  · intro r b r' h
    rw [(ru16_ok_state h).1]
    exact ⟨rfl, rfl⟩
  · intro r b r' h
    rw [(ru32_ok_state h).1]
    exact ⟨rfl, rfl⟩
  · intro r b r' h
    rw [(ri8_ok_state h).1]
    exact ⟨rfl, rfl⟩
  · intro r b r' h
    rw [(ri16_ok_state h).1]
    exact ⟨rfl, rfl⟩
  · intro r b r' h
    rw [(ri32_ok_state h).1]
    exact ⟨rfl, rfl⟩
  · intro r b r' h
    rw [(rf32_ok_state h).1]
    exact ⟨rfl, rfl⟩
  · intro r b r' h
    rw [(rf64_ok_state h).1]
    exact ⟨rfl, rfl⟩
  · intro r b r' h
    rcases rbool_ok_parts h with ⟨u, h8, _⟩
    rw [(ru8_ok_state h8).1]
    exact ⟨rfl, rfl⟩
  · intro r c r' h
    rcases rchar_ok_parts h with ⟨u, h8, _⟩
    rw [(ru8_ok_state h8).1]
    exact ⟨rfl, rfl⟩
  · intro r v r' h
    rcases ruv_octets h with ⟨h0, hlen, hlast, hmid⟩
    exact ⟨(ruv_ok_state h).1, h0, (ruv_ok_state h).2, hlen, hlast, hmid⟩
  · intro r v r' h
    rcases riv_ok_parts h with ⟨n, hn, _⟩
    exact ⟨n, hn⟩
  · intro r L r₁ bs r₂ hv hb hL
    rcases rbytes_ok_state hb with ⟨L', r₁', hv', hr₂, _⟩
    rw [hv] at hv'
    injection hv' with h1
    injection h1 with hL' hr'
    subst hL'
    subst hr'
    have hlt := (ruv_ok_state hv).2
    have hbuf := (ruv_ok_state hv).1
    refine ⟨by rw [hr₂], ?_, ?_⟩
    · rw [hr₂]
      simp only
      omega
    · rw [hr₂]
      simp only
      exact hbuf
  · intro r
    rfl
  · intro r
    rfl
  · intro r
    rfl
  · intro w n
    rfl
  · intro w n
    rfl
  · intro w n w' h
    exact wu8_pos h
  · intro w n w' h
    exact wi8_pos h
  · intro w n w' h
    exact wu16_pos h
  · intro w n w' h
    exact wi16_pos h
  · intro w n w' h
    exact wu32_pos h
  · intro w n w' h
    exact wi32_pos h
  · intro w p w' h
    exact wf32_pos h
  · intro w p w' h
    exact wf64_pos h
  · intro w b w' h
    exact wbool_pos h
  · intro w c w' h
    exact wchar_pos h
  · intro w n w' h
    exact wuv_pos h
  · intro w n
    rfl
  · intro w bs w' h
    exact wbytes_pos h
  · intro w s
    rfl

/-- Claim C7, amended, witness: the byte-run composition conjunct applied
to the wire image `[0x02, 9, 9]` (length prefix `2`, payload `[9, 9]`)
extended by a further byte `7`: the read returns the same payload and
cursor `3` on the extension. -/
theorem claim_C7_amended_witness :
    SerialReader.rbytes ⟨[0x02, 9, 9] ++ [7], 0⟩ =
      .ok ([9, 9], ⟨[0x02, 9, 9] ++ [7], 3⟩) :=
  claim_C7_amended_cursor_advance.1 ⟨[0x02, 9, 9], 0⟩ 2 ⟨[0x02, 9, 9], 1⟩
    [9, 9] ⟨[0x02, 9, 9], 3⟩ [7] (by decide) (by decide) (by decide) (by decide)

/-- Claim C9. For every writer state whose cursor respects the capacity
(an invariant the operations maintain), `getBuffer` returns exactly the
logical `[0, pos)` slice: its length is `pos`, its entries agree with the
backing store on `[0, pos)`, and whenever the store is strictly larger
than `pos` the result is not the raw backing store. Being a pure
function of the state, `getBuffer` leaves `pos` and the contents
untouched, so it may be called repeatedly and writing may continue. -/
theorem claim_C9_writer_getBuffer :
    ∀ w : SerialWriter, w.pos ≤ w.store.length →
      ((w.getBuffer).length = w.pos ∧
       (∀ i : Nat, i < w.pos → (w.getBuffer)[i]? = w.store[i]?) ∧
       (w.pos < w.store.length → w.getBuffer ≠ w.store)) := by
  intro w h
  refine ⟨?_, ?_, ?_⟩
  · rw [SerialWriter.getBuffer, List.length_take]
    omega
  · intro i hi
    rw [SerialWriter.getBuffer]
    exact List.getElem?_take_of_lt hi
  · intro hlt heq
    have hlen := congrArg List.length heq
    rw [SerialWriter.getBuffer, List.length_take] at hlen
    omega

/-- Claim C9, witness: a writer holding three bytes with cursor 2 extracts
a two-byte slice that is not its backing store. -/
theorem claim_C9_witness :
    (SerialWriter.getBuffer ⟨[1, 2, 3], 2⟩).length = 2 ∧
    SerialWriter.getBuffer ⟨[1, 2, 3], 2⟩ ≠ [1, 2, 3] := by
  have h := claim_C9_writer_getBuffer ⟨[1, 2, 3], 2⟩ (by decide)
  exact ⟨h.1, h.2.2 (by decide)⟩

/-- Claim C10. The reader's `getBuffer` returns the very buffer the reader
was constructed over, whole and untrimmed, at every cursor position, and
no read operation changes it — in contrast to the writer's `getBuffer`,
which trims to `[0, pos)` (final conjunct: on a concrete writer state the
extraction differs from the backing store). -/
theorem claim_C10_reader_getBuffer :
    (∀ (buf : List Nat) (pos : Int), SerialReader.getBuffer ⟨buf, pos⟩ = buf) ∧
    (∀ (r : SerialReader) (b : Nat) (r' : SerialReader),
        r.ru8 = .ok (b, r') → r'.getBuffer = r.getBuffer) ∧
    (∀ (r : SerialReader) (v : Int) (r' : SerialReader),
        r.ruv = .ok (v, r') → r'.getBuffer = r.getBuffer) ∧
    (∀ (r : SerialReader) (bs : List Nat) (r₂ : SerialReader),
        r.rbytes = .ok (bs, r₂) → r₂.getBuffer = r.getBuffer) ∧
    SerialWriter.getBuffer ⟨[1, 2], 1⟩ ≠ [1, 2] := by
  refine ⟨fun _ _ => rfl, ?_, ?_, ?_, by decide⟩
  · intro r b r' h
    rw [(ru8_ok_state h).1]
    rfl
  · intro r v r' h
    exact (ruv_ok_state h).1
  · intro r bs r₂ h
    rcases rbytes_ok_state h with ⟨L, r₁, hv, hr₂, _⟩
    rw [hr₂]
    exact (ruv_ok_state hv).1

/-- Claim C10, witness: after reading one byte the reader still exposes
its whole original buffer. -/
theorem claim_C10_witness :
    SerialReader.getBuffer ⟨[0x2C], 1⟩ = SerialReader.getBuffer ⟨[0x2C], 0⟩ :=
  claim_C10_reader_getBuffer.2.1 ⟨[0x2C], 0⟩ 0x2C ⟨[0x2C], 1⟩ (by decide)
